import Mathlib

/-!
Verification of the document-boundary inference engine of an OpenCV-based
document scanner (`scan.py`).

The engine's own logic — corner de-duplication (`filter_corners`), validity
checking (`is_valid_contour`) and the two-path candidate generation and
selection of `get_contour` — is translated directly from the source.  The
external vision primitives it consumes (the line-segment detector feeding
`get_corners`, `cv2.findContours`, `cv2.approxPolyDP`, and the canonical
point ordering `pyimagesearch.transform.order_points`, which is vendored
outside the sources at hand) enter the embedding as explicit parameters,
as does the float `acos`-based angle-range key wherever only its ordering
matters.  The angle computations themselves (`angle_between_vectors_degrees`,
`get_angle`, `angle_range`) are embedded over the exact reals.
-/

namespace DocScan

/-- A 2-D pixel coordinate `(x, y)`, as in the integer contours of `scan.py`. -/
abbrev Point := ℤ × ℤ

/-- Cyclic shoelace sum of a polygon: `Σ (x_i * y_(i+1) - x_(i+1) * y_i)` with
the successor of the last vertex being `p0`, the first vertex of the polygon. -/
def shoelaceAux (p0 : Point) : List Point → ℤ
  | [] => 0
  | [a] => a.1 * p0.2 - p0.1 * a.2
  | a :: b :: rest => (a.1 * b.2 - b.1 * a.2) + shoelaceAux p0 (b :: rest)

/-- Twice the value of `cv2.contourArea`: the absolute value of the shoelace
sum.  Kept over `ℕ` so that every comparison in the executable pipeline is
exact integer arithmetic. -/
def contourArea2 : List Point → ℕ
  | [] => 0
  | p :: ps => (shoelaceAux p (p :: ps)).natAbs

/-- `cv2.contourArea`: half the absolute value of the shoelace sum (OpenCV
returns the unsigned area when called without `oriented`). -/
def contourArea (c : List Point) : ℚ := (contourArea2 c : ℚ) / 2

/-- Squared Euclidean distance between two points. -/
def sqDist (a b : Point) : ℤ := (a.1 - b.1) ^ 2 + (a.2 - b.2) ^ 2

/-- The comparison `dist.euclidean(a, b) >= min_dist` of `filter_corners`,
stated exactly over the integers: for `0 ≤ d`, `√(sqDist a b) ≥ d ↔ sqDist a b ≥ d²`
(the equivalence is proved below as `sqDist_le_iff_dist_le`). -/
def farFrom (minDist : ℤ) (a b : Point) : Bool := decide (minDist ^ 2 ≤ sqDist a b)

/-- The closure `predicate(representatives, corner)` inside
`DocScanner.filter_corners`: the corner is far from every kept representative. -/
def filterPred (minDist : ℤ) (reps : List Point) (c : Point) : Bool :=
  reps.all (fun r => farFrom minDist r c)

/-- The accumulation loop of `DocScanner.filter_corners`: `acc` is the list
`filtered_corners` built so far, appended to on acceptance. -/
def filterCornersAux (minDist : ℤ) (acc : List Point) : List Point → List Point
  | [] => acc
  | c :: cs =>
      if filterPred minDist acc c then filterCornersAux minDist (acc ++ [c]) cs
      else filterCornersAux minDist acc cs

/-- `DocScanner.filter_corners(corners, min_dist=20)`; the default `min_dist`
is 20 and is passed explicitly here. -/
def filter_corners (corners : List Point) (minDist : ℤ) : List Point :=
  filterCornersAux minDist [] corners

/-- Real-vector view of an integer point. -/
def toVec (p : Point) : ℝ × ℝ := ((p.1 : ℝ), (p.2 : ℝ))

/-- Dot product `np.dot` on 2-D vectors. -/
def vdot (u v : ℝ × ℝ) : ℝ := u.1 * v.1 + u.2 * v.2

/-- Euclidean norm `np.linalg.norm` on 2-D vectors. -/
noncomputable def vnorm (u : ℝ × ℝ) : ℝ := Real.sqrt (u.1 ^ 2 + u.2 ^ 2)

/-- `np.degrees`. -/
noncomputable def npDegrees (x : ℝ) : ℝ := x * 180 / Real.pi

/-- `np.radians` applied componentwise to a point: scaling by `π / 180`. -/
noncomputable def npRadians (p : Point) : ℝ × ℝ :=
  ((p.1 : ℝ) * (Real.pi / 180), (p.2 : ℝ) * (Real.pi / 180))

/-- `DocScanner.angle_between_vectors_degrees(u, v)`: the exact-real reading of
`np.degrees(math.acos(np.dot(u, v) / (np.linalg.norm(u) * np.linalg.norm(v))))`. -/
noncomputable def angle_between_vectors_degrees (u v : ℝ × ℝ) : ℝ :=
  npDegrees (Real.arccos (vdot u v / (vnorm u * vnorm v)))

/-- `DocScanner.get_angle(p1, p2, p3)`: the three points are converted with
`np.radians`, then the angle at `p2` is taken between the difference vectors. -/
noncomputable def get_angle (p1 p2 p3 : Point) : ℝ :=
  angle_between_vectors_degrees
    (npRadians p1 - npRadians p2) (npRadians p3 - npRadians p2)

/-- `DocScanner.angle_range(quad)`: `np.ptp` (max − min) of the four interior
angles of a quadrilateral given in (tl, tr, br, bl) order.  `scan.py` only
calls it on 4-vertex arrays (any other length would raise on unpacking); the
unreachable other lengths are embedded as 0. -/
noncomputable def angle_range : List Point → ℝ
  | [tl, tr, br, bl] =>
      let ura := get_angle tl tr br
      let ula := get_angle bl tl tr
      let lra := get_angle tr br bl
      let lla := get_angle br bl tl
      max (max (max ura ula) lra) lla - min (min (min ura ula) lra) lla
  | _ => 0

/-- Lexicographic comparison on points: a total, antisymmetric, transitive
ordering used by the canonical point ordering below. -/
def ptLe (a b : Point) : Prop := a.1 < b.1 ∨ (a.1 = b.1 ∧ a.2 ≤ b.2)

instance : DecidableRel ptLe := fun a b =>
  inferInstanceAs (Decidable (a.1 < b.1 ∨ (a.1 = b.1 ∧ a.2 ≤ b.2)))

instance : IsTotal Point ptLe :=
  ⟨fun a b => by
    unfold ptLe
    rcases lt_trichotomy a.1 b.1 with h | h | h
    · exact Or.inl (Or.inl h)
    · rcases le_total a.2 b.2 with h2 | h2
      · exact Or.inl (Or.inr ⟨h, h2⟩)
      · exact Or.inr (Or.inr ⟨h.symm, h2⟩)
    · exact Or.inr (Or.inl h)⟩

instance : IsTrans Point ptLe :=
  ⟨fun a b c hab hbc => by
    unfold ptLe at hab hbc ⊢
    rcases hab with h | ⟨he, h2⟩ <;> rcases hbc with h' | ⟨he', h2'⟩
    · exact Or.inl (h.trans h')
    · exact Or.inl (he' ▸ h)
    · exact Or.inl (he ▸ h')
    · exact Or.inr ⟨he.trans he', h2.trans h2'⟩⟩

instance : IsAntisymm Point ptLe :=
  ⟨fun a b hab hba => by
    unfold ptLe at hab hba
    rcases hab with h | ⟨he, h2⟩ <;> rcases hba with h' | ⟨he', h2'⟩
    · exact absurd (h.trans h') (lt_irrefl _)
    · exact absurd h (he' ▸ lt_irrefl _)
    · exact absurd h' (he ▸ lt_irrefl _)
    · exact Prod.ext he (le_antisymm h2 h2')⟩

/-- First-wins selection of an element minimising `key` (ties keep the
earliest element). -/
def selMin (key : Point → ℤ) (d : Point) (l : List Point) : Point :=
  l.foldl (fun acc x => if key x < key acc then x else acc) d

/-- First-wins selection of an element maximising `key` (ties keep the
earliest element). -/
def selMax (key : Point → ℤ) (d : Point) (l : List Point) : Point :=
  l.foldl (fun acc x => if key acc < key x then x else acc) d

/-- Modelled from the spec: `orderClockwiseFromTopLeft` — the canonical
ordering of four points into (top-left, top-right, bottom-right, bottom-left).
The code calls `pyimagesearch.transform.order_points`, whose source file is
not among the sources at hand; the spec requires a deterministic canonical
ordering of the 4-point set with a stable tie-break.  Modelled as: sort the
input canonically (so the result depends only on the multiset of points),
then take top-left/bottom-right as the extremes of `x + y` and
top-right/bottom-left as the extremes of `y − x`, ties first-wins. -/
def order_points (pts : List Point) : List Point :=
  match List.insertionSort ptLe pts with
  | [a, b, c, d] =>
      let s := [a, b, c, d]
      [selMin (fun p => p.1 + p.2) a s, selMin (fun p => p.2 - p.1) a s,
       selMax (fun p => p.1 + p.2) a s, selMax (fun p => p.2 - p.1) a s]
  | s => s

/-- Default `MIN_QUAD_AREA_RATIO` of `DocScanner.__init__`: 0.25, built as the
literal reduced fraction `1/4` (proved equal to `1 / 4` below) so that its
numerator and denominator reduce definitionally. -/
def MIN_QUAD_AREA_RATIO : ℚ := ⟨1, 4, by decide, by decide⟩

/-- Default `MAX_QUAD_ANGLE_RANGE` of `DocScanner.__init__`: 40. -/
def MAX_QUAD_ANGLE_RANGE : ℚ := 40

/-- `DocScanner.is_valid_contour(cnt, IM_WIDTH, IM_HEIGHT)`:
`len(cnt) == 4 and contourArea(cnt) > W * H * MIN_QUAD_AREA_RATIO and
angle_range(cnt) < MAX_QUAD_ANGLE_RANGE`.  The angle key is a parameter over
an arbitrary linear order (the code computes it with float `acos`; the
selection logic only consumes its ordering), and the two thresholds of
`DocScanner.__init__` are passed explicitly.
The area comparison `cv2.contourArea(cnt) > W * H * minRatio` is carried out
in exact integer arithmetic by cross-multiplying with the positive
denominators (`2` and `minRatio.den`); the equivalence with the rational
comparison is proved below as `is_valid_contour_iff`. -/
def is_valid_contour {α : Type} [LinearOrder α] (angleKey : List Point → α)
    (minRatio : ℚ) (maxAngle : α) (W H : ℤ) (cnt : List Point) : Bool :=
  decide (cnt.length = 4)
    && decide (2 * W * H * minRatio.num < (contourArea2 cnt : ℤ) * (minRatio.den : ℤ))
    && decide (angleKey cnt < maxAngle)

/-- The ordering of `sorted(..., key=cv2.contourArea, reverse=True)`: stable
descending order by area.  Python's `sorted` is a stable sort; a stable sort
is extensionally unique for a total preorder, so the structurally recursive
stable `List.insertionSort` used below computes exactly its output.
Comparing by `contourArea2` (twice the area, a natural number) orders exactly
as comparing by `cv2.contourArea` (proved below as `areaDesc_iff`). -/
def areaDesc (a b : List Point) : Prop := contourArea2 b ≤ contourArea2 a

instance : DecidableRel areaDesc := fun a b =>
  inferInstanceAs (Decidable (contourArea2 b ≤ contourArea2 a))

instance : IsTotal (List Point) areaDesc := ⟨fun a b => le_total _ _⟩

instance : IsTrans (List Point) areaDesc := ⟨fun _ _ _ hab hbc => hbc.trans hab⟩

/-- The ordering of `sorted(quads, key=self.angle_range)`: stable ascending
order by the angle-range key. -/
def angleAsc {α : Type} [LinearOrder α] (angleKey : List Point → α)
    (a b : List Point) : Prop := angleKey a ≤ angleKey b

instance {α : Type} [LinearOrder α] (angleKey : List Point → α) :
    DecidableRel (angleAsc angleKey) := fun a b =>
  inferInstanceAs (Decidable (angleKey a ≤ angleKey b))

instance {α : Type} [LinearOrder α] (angleKey : List Point → α) :
    IsTotal (List Point) (angleAsc angleKey) := ⟨fun a b => le_total _ _⟩

instance {α : Type} [LinearOrder α] (angleKey : List Point → α) :
    IsTrans (List Point) (angleAsc angleKey) := ⟨fun _ _ _ hab hbc => hab.trans hbc⟩

/-- Path A of `DocScanner.get_contour` (lines 234–250): if at least 4 corner
candidates exist, enumerate all 4-element combinations
(`itertools.combinations(test_corners, 4)`, one per 4-element subsequence),
canonicalize each with `order_points` (the parameter `orderPts`), keep the top
5 by area (stable descending sort, then take), re-sort those by the angle key
ascending, and contribute the first quadrilateral iff it is valid.  The list
returned is Path A's contribution to `approx_contours`. -/
def cornerPath {α : Type} [LinearOrder α] (orderPts : List Point → List Point)
    (angleKey : List Point → α) (minRatio : ℚ) (maxAngle : α) (W H : ℤ)
    (test_corners : List Point) : List (List Point) :=
  if 4 ≤ test_corners.length then
    match List.insertionSort (angleAsc angleKey)
        ((List.insertionSort areaDesc
          ((List.sublistsLen 4 test_corners).map orderPts)).take 5) with
    | [] => []
    | approx :: _ =>
        if is_valid_contour angleKey minRatio maxAngle W H approx then [approx]
        else []
  else []

/-- The loop of Path B of `DocScanner.get_contour` (lines 265–270): walk the
contours in order, append the first valid `cv2.approxPolyDP(c, 80, True)`
approximation (the external primitive enters as `approxPoly`) and `break`. -/
def contourPathLoop {α : Type} [LinearOrder α] (approxPoly : List Point → List Point)
    (angleKey : List Point → α) (minRatio : ℚ) (maxAngle : α) (W H : ℤ) :
    List (List Point) → List (List Point)
  | [] => []
  | c :: cs =>
      if is_valid_contour angleKey minRatio maxAngle W H (approxPoly c) then
        [approxPoly c]
      else contourPathLoop approxPoly angleKey minRatio maxAngle W H cs

/-- Path B of `DocScanner.get_contour` (lines 257–270): the raw contours from
`cv2.findContours` (a parameter of the embedding) sorted by area descending
and cut to the top 5, then the first-valid-approximation loop. -/
def contourPath {α : Type} [LinearOrder α] (approxPoly : List Point → List Point)
    (angleKey : List Point → α) (minRatio : ℚ) (maxAngle : α) (W H : ℤ)
    (cnts : List (List Point)) : List (List Point) :=
  contourPathLoop approxPoly angleKey minRatio maxAngle W H
    ((List.insertionSort areaDesc cnts).take 5)

/-- `max(approx_contours, key=cv2.contourArea)`: Python's `max` keeps the
first element among ties, replacing the running maximum only on a strictly
greater key (comparing twice the areas compares the areas). -/
def maxByArea (c : List Point) (cs : List (List Point)) : List Point :=
  cs.foldl (fun acc x => if contourArea2 acc < contourArea2 x then x else acc) c

/-- The decision logic of `DocScanner.get_contour` (lines 232–283), from the
corner candidates (`get_corners` output) and raw contours (`cv2.findContours`
output) onward: `approx_contours` is Path A's contribution followed by
Path B's; if it is empty the literal fallback
`np.array([[TOP_RIGHT], [BOTTOM_RIGHT], [BOTTOM_LEFT], [TOP_LEFT]])` is
returned with `has_cnt = False`, otherwise the maximum by area with
`has_cnt = True`. -/
def get_contour {α : Type} [LinearOrder α]
    (orderPts approxPoly : List Point → List Point) (angleKey : List Point → α)
    (minRatio : ℚ) (maxAngle : α) (W H : ℤ) (test_corners : List Point)
    (cnts : List (List Point)) : List Point × Bool :=
  match cornerPath orderPts angleKey minRatio maxAngle W H test_corners ++
        contourPath approxPoly angleKey minRatio maxAngle W H cnts with
  | [] => ([(W, 0), (W, H), (0, H), (0, 0)], false)
  | c :: cs => (maxByArea c cs, true)

/-! ### Bridge lemmas between the integer comparisons and the rational area -/

/-- The default area ratio is the rational number 0.25. -/
theorem min_quad_area_ratio_eq : MIN_QUAD_AREA_RATIO = 1 / 4 := by
  have h : MIN_QUAD_AREA_RATIO = Rat.mk' 1 4 (by decide) (by decide) := rfl
  rw [h, Rat.mk'_eq_divInt, Rat.divInt_eq_div]
  norm_num

theorem contourArea_le_iff (a b : List Point) :
    contourArea a ≤ contourArea b ↔ contourArea2 a ≤ contourArea2 b := by
  unfold contourArea
  rw [div_le_div_iff_of_pos_right (by norm_num : (0 : ℚ) < 2)]
  exact_mod_cast Iff.rfl

theorem contourArea_lt_iff (a b : List Point) :
    contourArea a < contourArea b ↔ contourArea2 a < contourArea2 b := by
  unfold contourArea
  rw [div_lt_div_iff_of_pos_right (by norm_num : (0 : ℚ) < 2)]
  exact_mod_cast Iff.rfl

theorem areaDesc_iff (a b : List Point) :
    areaDesc a b ↔ contourArea b ≤ contourArea a := by
  rw [contourArea_le_iff]; exact Iff.rfl

/-- The integer form of the area threshold in `is_valid_contour` is exactly
the rational comparison `W * H * minRatio < cv2.contourArea cnt`. -/
theorem area_threshold_iff (minRatio : ℚ) (W H : ℤ) (cnt : List Point) :
    (2 * W * H * minRatio.num < (contourArea2 cnt : ℤ) * (minRatio.den : ℤ)) ↔
      (W : ℚ) * (H : ℚ) * minRatio < contourArea cnt := by
  have hden : (0 : ℚ) < (minRatio.den : ℚ) := by exact_mod_cast minRatio.pos
  constructor
  · intro h
    have h' : ((2 * W * H * minRatio.num : ℤ) : ℚ) <
        ((contourArea2 cnt : ℤ) * (minRatio.den : ℤ) : ℚ) := by exact_mod_cast h
    push_cast at h'
    unfold contourArea
    rw [← Rat.num_div_den minRatio, ← mul_div_assoc, div_lt_div_iff hden (by norm_num)]
    push_cast
    linarith
  · intro h
    unfold contourArea at h
    rw [← Rat.num_div_den minRatio, ← mul_div_assoc, div_lt_div_iff hden (by norm_num)] at h
    push_cast at h
    have h' : ((2 * W * H * minRatio.num : ℤ) : ℚ) <
        ((contourArea2 cnt : ℤ) * (minRatio.den : ℤ) : ℚ) := by push_cast; linarith
    exact_mod_cast h'

/-- `is_valid_contour` unfolded to the three conditions of the source, with
the area condition in its rational `cv2.contourArea` form. -/
theorem is_valid_contour_iff {α : Type} [LinearOrder α] (angleKey : List Point → α)
    (minRatio : ℚ) (maxAngle : α) (W H : ℤ) (cnt : List Point) :
    is_valid_contour angleKey minRatio maxAngle W H cnt = true ↔
      (cnt.length = 4 ∧ (W : ℚ) * (H : ℚ) * minRatio < contourArea cnt ∧
        angleKey cnt < maxAngle) := by
  unfold is_valid_contour
  simp only [Bool.and_eq_true, decide_eq_true_eq, and_assoc]
  rw [area_threshold_iff]

theorem contourArea_eq_iff (a b : List Point) :
    contourArea a = contourArea b ↔ contourArea2 a = contourArea2 b := by
  constructor
  · intro h
    exact le_antisymm ((contourArea_le_iff a b).mp h.le)
      ((contourArea_le_iff b a).mp h.ge)
  · intro h
    unfold contourArea
    rw [h]

/-! ### Generic helpers about sorting, folding and the loop structure -/

/-- In a `Pairwise`-ordered list, every element of `take n` is related to
every element of `drop n`. -/
theorem pairwise_take_drop {γ : Type} {R : γ → γ → Prop} {l : List γ}
    (h : List.Pairwise R l) (n : ℕ) :
    ∀ a ∈ l.take n, ∀ b ∈ l.drop n, R a b := by
  have h' : List.Pairwise R (l.take n ++ l.drop n) := by
    rw [List.take_append_drop]; exact h
  exact (List.pairwise_append.mp h').2.2

/-- `maxByArea` returns an element of the candidate list. -/
theorem maxByArea_mem (c : List Point) (cs : List (List Point)) :
    maxByArea c cs ∈ c :: cs := by
  induction cs generalizing c with
  | nil => simp [maxByArea]
  | cons x xs ih =>
      unfold maxByArea at ih ⊢
      simp only [List.foldl_cons]
      have h := ih (if contourArea2 c < contourArea2 x then x else c)
      by_cases hcx : contourArea2 c < contourArea2 x
      · rw [if_pos hcx] at h ⊢
        exact List.mem_cons_of_mem c h
      · rw [if_neg hcx] at h ⊢
        rcases List.mem_cons.mp h with h' | h'
        · rw [h']
          exact List.mem_cons_self _ _
        · exact List.mem_cons_of_mem c (List.mem_cons_of_mem x h')

/-- `maxByArea` dominates every candidate by area. -/
theorem le_maxByArea (c : List Point) (cs : List (List Point)) :
    ∀ b ∈ c :: cs, contourArea2 b ≤ contourArea2 (maxByArea c cs) := by
  induction cs generalizing c with
  | nil =>
      intro b hb
      rcases List.mem_cons.mp hb with h | h
      · subst h; simp [maxByArea]
      · simp at h
  | cons x xs ih =>
      intro b hb
      have step : maxByArea c (x :: xs) =
          maxByArea (if contourArea2 c < contourArea2 x then x else c) xs := by
        unfold maxByArea
        simp only [List.foldl_cons]
      have hc : contourArea2 c ≤
          contourArea2 (if contourArea2 c < contourArea2 x then x else c) := by
        by_cases hcx : contourArea2 c < contourArea2 x
        · rw [if_pos hcx]; exact hcx.le
        · rw [if_neg hcx]
      have hx : contourArea2 x ≤
          contourArea2 (if contourArea2 c < contourArea2 x then x else c) := by
        by_cases hcx : contourArea2 c < contourArea2 x
        · rw [if_pos hcx]
        · rw [if_neg hcx]; exact le_of_not_lt hcx
      have hhead := ih (if contourArea2 c < contourArea2 x then x else c)
        (if contourArea2 c < contourArea2 x then x else c) (List.mem_cons_self _ _)
      rcases List.mem_cons.mp hb with h | h
      · subst h
        rw [step]
        exact hc.trans hhead
      · rcases List.mem_cons.mp h with h' | h'
        · subst h'
          rw [step]
          exact hx.trans hhead
        · rw [step]
          exact ih _ b (List.mem_cons.mpr (Or.inr h'))

/-! ### Claim theorems -/

/-- Claim C2: `is_valid_contour(cnt, W, H)` returns true iff `cnt` has exactly
4 vertices, its area is strictly greater than `W * H * minAreaRatio`, and its
angle key is strictly below `maxAngleRange`; a quadrilateral whose area is at
or below the exact threshold is rejected; and the defaults are
`minAreaRatio = 0.25` and `maxAngleRange = 40`. -/
theorem claim_C2_is_valid_contour_characterization {α : Type} [LinearOrder α]
    (angleKey : List Point → α) (maxAngle : α) (W H : ℤ) (cnt : List Point) :
    (is_valid_contour angleKey MIN_QUAD_AREA_RATIO maxAngle W H cnt = true ↔
      (cnt.length = 4 ∧ (W : ℚ) * (H : ℚ) * (25 / 100) < contourArea cnt ∧
        angleKey cnt < maxAngle)) ∧
    (contourArea cnt ≤ (W : ℚ) * (H : ℚ) * (25 / 100) →
      is_valid_contour angleKey MIN_QUAD_AREA_RATIO maxAngle W H cnt = false) ∧
    MIN_QUAD_AREA_RATIO = 25 / 100 ∧ MAX_QUAD_ANGLE_RANGE = 40 := by
  have hr : MIN_QUAD_AREA_RATIO = 25 / 100 := by
    rw [min_quad_area_ratio_eq]; norm_num
  refine ⟨?_, ?_, hr, by norm_num [MAX_QUAD_ANGLE_RANGE]⟩
  · rw [is_valid_contour_iff, hr]
  · intro h
    refine Bool.eq_false_iff.mpr (fun hv => ?_)
    have := ((is_valid_contour_iff angleKey MIN_QUAD_AREA_RATIO maxAngle W H cnt).mp
      hv).2.1
    rw [hr] at this
    exact absurd this (not_lt.mpr h)

/-- Witness for C2 at a concrete input: a 2×2 square in a 10×10 frame covers
only 4/100 of the frame, at or below the 0.25 threshold, so it is rejected. -/
theorem claim_C2_witness :
    is_valid_contour (fun _ => (0 : ℤ)) MIN_QUAD_AREA_RATIO 40 10 10
      [(0, 0), (2, 0), (2, 2), (0, 2)] = false :=
  (claim_C2_is_valid_contour_characterization (fun _ => (0 : ℤ)) 40 10 10
    [(0, 0), (2, 0), (2, 2), (0, 2)]).2.1
    (by norm_num [contourArea, contourArea2, shoelaceAux])

/-- Claim C4, amended: when neither path produced a candidate, `get_contour`
returns the four frame corners with found = false, but in clockwise order
starting at the top-right corner — `(W,0), (W,H), (0,H), (0,0)` — as built on
line 278 of `scan.py`, not starting at the top-left corner as claimed. -/
theorem claim_C4_fallback_frame {α : Type} [LinearOrder α]
    (orderPts approxPoly : List Point → List Point) (angleKey : List Point → α)
    (minRatio : ℚ) (maxAngle : α) (W H : ℤ) (test_corners : List Point)
    (cnts : List (List Point))
    (h : cornerPath orderPts angleKey minRatio maxAngle W H test_corners ++
        contourPath approxPoly angleKey minRatio maxAngle W H cnts = []) :
    get_contour orderPts approxPoly angleKey minRatio maxAngle W H test_corners
      cnts = ([(W, 0), (W, H), (0, H), (0, 0)], false) := by
  unfold get_contour
  rw [h]

/-- Witness for the amended C4: with no corner candidates and no contours at
all, the 2×3 frame corners come back in top-right-first order, found = false. -/
theorem claim_C4_fallback_frame_witness :
    get_contour (α := ℤ) id id (fun _ => 0) MIN_QUAD_AREA_RATIO 40 2 3 [] [] =
      ([(2, 0), (2, 3), (0, 3), (0, 0)], false) :=
  claim_C4_fallback_frame id id (fun _ => 0) MIN_QUAD_AREA_RATIO 40 2 3 [] []
    (by decide)

/-- Counterexample to C4 as stated: on zero corner candidates and zero
contours in a 2×3 frame, both paths contribute nothing and the returned
quadrilateral is `[(2,0), (2,3), (0,3), (0,0)]` — clockwise starting at the
top-RIGHT corner — which differs from the claimed canonical order
`[(0,0), (2,0), (2,3), (0,3)]` starting at the top-left corner. -/
theorem claim_C4_counterexample :
    cornerPath (α := ℤ) id (fun _ => 0) MIN_QUAD_AREA_RATIO 40 2 3 [] ++
        contourPath (α := ℤ) id (fun _ => 0) MIN_QUAD_AREA_RATIO 40 2 3 [] = [] ∧
    get_contour (α := ℤ) id id (fun _ => 0) MIN_QUAD_AREA_RATIO 40 2 3 [] [] =
      ([(2, 0), (2, 3), (0, 3), (0, 0)], false) ∧
    (get_contour (α := ℤ) id id (fun _ => 0) MIN_QUAD_AREA_RATIO 40 2 3 [] []).1 ≠
      [(0, 0), (2, 0), (2, 3), (0, 3)] := by
  refine ⟨by decide, by decide, by decide⟩

/-- Claim C9: when both paths produced a candidate and the two candidates have
exactly equal area, `get_contour` returns the Path A (corner-path) candidate
with found = true: it sits first in `approx_contours` and Python's `max`
keeps the first maximal element. -/
theorem claim_C9_tie_breaks_to_corner_path {α : Type} [LinearOrder α]
    (orderPts approxPoly : List Point → List Point) (angleKey : List Point → α)
    (minRatio : ℚ) (maxAngle : α) (W H : ℤ) (test_corners : List Point)
    (cnts : List (List Point)) (a b : List Point)
    (hA : cornerPath orderPts angleKey minRatio maxAngle W H test_corners = [a])
    (hB : contourPath approxPoly angleKey minRatio maxAngle W H cnts = [b])
    (hab : contourArea a = contourArea b) :
    get_contour orderPts approxPoly angleKey minRatio maxAngle W H test_corners
      cnts = (a, true) := by
  unfold get_contour
  rw [hA, hB]
  have h2 : contourArea2 a = contourArea2 b := (contourArea_eq_iff a b).mp hab
  simp [maxByArea, h2]

/-- Witness for C9: a 10×10 frame where the corner path yields the full square
and the contour path yields the same square (equal areas); the corner-path
copy is returned. -/
theorem claim_C9_witness :
    get_contour (α := ℤ) order_points id (fun _ => 0) MIN_QUAD_AREA_RATIO 40
      10 10 [(0, 0), (10, 0), (10, 10), (0, 10)]
      [[(0, 0), (10, 0), (10, 10), (0, 10)]] =
      ([(0, 0), (10, 0), (10, 10), (0, 10)], true) :=
  claim_C9_tie_breaks_to_corner_path order_points id (fun _ => 0)
    MIN_QUAD_AREA_RATIO 40 10 10 [(0, 0), (10, 0), (10, 10), (0, 10)]
    [[(0, 0), (10, 0), (10, 10), (0, 10)]]
    [(0, 0), (10, 0), (10, 10), (0, 10)] [(0, 0), (10, 0), (10, 10), (0, 10)]
    (by decide) (by decide) rfl

/-- Claim C3: whenever the two paths contributed at least one candidate,
`get_contour` returns found = true together with a candidate of maximal
`cv2.contourArea` among the contributions (Path A's first, then Path B's);
with a single candidate, that candidate is returned. -/
theorem claim_C3_returns_largest_candidate {α : Type} [LinearOrder α]
    (orderPts approxPoly : List Point → List Point) (angleKey : List Point → α)
    (minRatio : ℚ) (maxAngle : α) (W H : ℤ) (test_corners : List Point)
    (cnts : List (List Point)) :
    (cornerPath orderPts angleKey minRatio maxAngle W H test_corners ++
        contourPath approxPoly angleKey minRatio maxAngle W H cnts ≠ [] →
      (get_contour orderPts approxPoly angleKey minRatio maxAngle W H
          test_corners cnts).2 = true ∧
      (get_contour orderPts approxPoly angleKey minRatio maxAngle W H
          test_corners cnts).1 ∈
        cornerPath orderPts angleKey minRatio maxAngle W H test_corners ++
          contourPath approxPoly angleKey minRatio maxAngle W H cnts ∧
      (∀ c ∈ cornerPath orderPts angleKey minRatio maxAngle W H test_corners ++
          contourPath approxPoly angleKey minRatio maxAngle W H cnts,
        contourArea c ≤
          contourArea ((get_contour orderPts approxPoly angleKey minRatio
            maxAngle W H test_corners cnts).1))) ∧
    (∀ c, cornerPath orderPts angleKey minRatio maxAngle W H test_corners ++
        contourPath approxPoly angleKey minRatio maxAngle W H cnts = [c] →
      get_contour orderPts approxPoly angleKey minRatio maxAngle W H
        test_corners cnts = (c, true)) := by
  rcases h : cornerPath orderPts angleKey minRatio maxAngle W H test_corners ++
      contourPath approxPoly angleKey minRatio maxAngle W H cnts with _ | ⟨c, cs⟩
  · exact ⟨fun hne => absurd rfl hne, fun c hc => by simp at hc⟩
  · constructor
    · intro _
      have hg : get_contour orderPts approxPoly angleKey minRatio maxAngle W H
          test_corners cnts = (maxByArea c cs, true) := by
        unfold get_contour
        rw [h]
      rw [hg]
      refine ⟨rfl, maxByArea_mem c cs, ?_⟩
      intro q hq
      exact (contourArea_le_iff q (maxByArea c cs)).mpr (le_maxByArea c cs q hq)
    · intro q hq
      have hc : c = q ∧ cs = [] := by simpa using hq
      rcases hc with ⟨rfl, rfl⟩
      unfold get_contour
      rw [h]
      simp [maxByArea]

/-- Witness for C3: a single contour-path candidate (the 10×10 square) is
returned with found = true. -/
theorem claim_C3_witness :
    (get_contour (α := ℤ) id id (fun _ => 0) MIN_QUAD_AREA_RATIO 40 10 10 []
        [[(0, 0), (10, 0), (10, 10), (0, 10)]]).2 = true ∧
    (get_contour (α := ℤ) id id (fun _ => 0) MIN_QUAD_AREA_RATIO 40 10 10 []
        [[(0, 0), (10, 0), (10, 10), (0, 10)]]).1 ∈
      cornerPath (α := ℤ) id (fun _ => 0) MIN_QUAD_AREA_RATIO 40 10 10 [] ++
        contourPath (α := ℤ) id (fun _ => 0) MIN_QUAD_AREA_RATIO 40 10 10
          [[(0, 0), (10, 0), (10, 10), (0, 10)]] ∧
    (∀ c ∈ cornerPath (α := ℤ) id (fun _ => 0) MIN_QUAD_AREA_RATIO 40 10 10 [] ++
        contourPath (α := ℤ) id (fun _ => 0) MIN_QUAD_AREA_RATIO 40 10 10
          [[(0, 0), (10, 0), (10, 10), (0, 10)]],
      contourArea c ≤
        contourArea ((get_contour (α := ℤ) id id (fun _ => 0)
          MIN_QUAD_AREA_RATIO 40 10 10 []
          [[(0, 0), (10, 0), (10, 10), (0, 10)]]).1)) :=
  (claim_C3_returns_largest_candidate id id (fun _ => 0) MIN_QUAD_AREA_RATIO 40
    10 10 [] [[(0, 0), (10, 0), (10, 10), (0, 10)]]).1 (by decide)

/-- Case analysis of the first-success loop of Path B: either no contour in
the list has a valid approximation and the loop yields nothing, or the list
splits around the first contour with a valid approximation, which is the
loop's single contribution. -/
theorem contourPathLoop_cases {α : Type} [LinearOrder α]
    (approxPoly : List Point → List Point) (angleKey : List Point → α)
    (minRatio : ℚ) (maxAngle : α) (W H : ℤ) (l : List (List Point)) :
    (contourPathLoop approxPoly angleKey minRatio maxAngle W H l = [] ∧
      ∀ c ∈ l,
        is_valid_contour angleKey minRatio maxAngle W H (approxPoly c) = false) ∨
    (∃ pre c post, l = pre ++ c :: post ∧
      is_valid_contour angleKey minRatio maxAngle W H (approxPoly c) = true ∧
      (∀ c' ∈ pre,
        is_valid_contour angleKey minRatio maxAngle W H (approxPoly c') = false) ∧
      contourPathLoop approxPoly angleKey minRatio maxAngle W H l =
        [approxPoly c]) := by
  induction l with
  | nil => exact Or.inl ⟨rfl, by simp⟩
  | cons c cs ih =>
      by_cases hv :
        is_valid_contour angleKey minRatio maxAngle W H (approxPoly c) = true
      · refine Or.inr ⟨[], c, cs, rfl, hv, by simp, ?_⟩
        simp only [contourPathLoop, hv, if_true]
      · have hv' :
            is_valid_contour angleKey minRatio maxAngle W H (approxPoly c) =
              false := Bool.eq_false_iff.mpr hv
        have hstep : contourPathLoop approxPoly angleKey minRatio maxAngle W H
            (c :: cs) =
            contourPathLoop approxPoly angleKey minRatio maxAngle W H cs := by
          simp only [contourPathLoop, hv', Bool.false_eq_true, if_false]
        rcases ih with ⟨hnil, hall⟩ | ⟨pre, c', post, hl, hvc, hpre, hloop⟩
        · refine Or.inl ⟨hstep.trans hnil, ?_⟩
          intro x hx
          rcases List.mem_cons.mp hx with rfl | hx
          · exact hv'
          · exact hall x hx
        · refine Or.inr ⟨c :: pre, c', post, by rw [hl, List.cons_append], hvc,
            ?_, hstep.trans hloop⟩
          intro x hx
          rcases List.mem_cons.mp hx with rfl | hx
          · exact hv'
          · exact hpre x hx

/-- Claim C5: the contour path considers at most the 5 contours of greatest
area in descending order; it contributes the first valid tolerance-80
approximation and examines nothing after that success; it contributes at
most one candidate. -/
theorem claim_C5_contour_path_first_valid {α : Type} [LinearOrder α]
    (approxPoly : List Point → List Point) (angleKey : List Point → α)
    (minRatio : ℚ) (maxAngle : α) (W H : ℤ) (cnts : List (List Point)) :
    ∃ top5 rest,
      List.Perm cnts (top5 ++ rest) ∧
      top5.length = min 5 cnts.length ∧
      List.Pairwise (fun a b => contourArea b ≤ contourArea a) top5 ∧
      (∀ c ∈ top5, ∀ r ∈ rest, contourArea r ≤ contourArea c) ∧
      (contourPath approxPoly angleKey minRatio maxAngle W H cnts).length ≤ 1 ∧
      ((contourPath approxPoly angleKey minRatio maxAngle W H cnts = [] ∧
          ∀ c ∈ top5,
            is_valid_contour angleKey minRatio maxAngle W H (approxPoly c) =
              false) ∨
        (∃ pre c post, top5 = pre ++ c :: post ∧
          is_valid_contour angleKey minRatio maxAngle W H (approxPoly c) = true ∧
          (∀ c' ∈ pre,
            is_valid_contour angleKey minRatio maxAngle W H (approxPoly c') =
              false) ∧
          contourPath approxPoly angleKey minRatio maxAngle W H cnts =
            [approxPoly c])) := by
  refine ⟨(List.insertionSort areaDesc cnts).take 5,
    (List.insertionSort areaDesc cnts).drop 5, ?_, ?_, ?_, ?_, ?_, ?_⟩
  · rw [List.take_append_drop]
    exact (List.perm_insertionSort areaDesc cnts).symm
  · rw [List.length_take, List.length_insertionSort]
  · exact List.Pairwise.imp (fun hab => (areaDesc_iff _ _).mp hab)
      (List.Pairwise.sublist (List.take_sublist 5 _)
        (List.sorted_insertionSort areaDesc cnts))
  · intro c hc r hr
    exact (areaDesc_iff c r).mp
      (pairwise_take_drop (List.sorted_insertionSort areaDesc cnts) 5 c hc r hr)
  · rcases contourPathLoop_cases approxPoly angleKey minRatio maxAngle W H
        ((List.insertionSort areaDesc cnts).take 5) with ⟨hnil, _⟩ | ⟨_, c, _, _, _, _, hloop⟩
    · unfold contourPath
      rw [hnil]
      exact Nat.zero_le 1
    · unfold contourPath
      rw [hloop]
      exact le_refl 1
  · exact contourPathLoop_cases approxPoly angleKey minRatio maxAngle W H
      ((List.insertionSort areaDesc cnts).take 5)

/-- Witness for C5 at a concrete input: of two contours, the larger (a 10×10
square) is examined first and contributes; the theorem's disjunction holds
at that input. -/
theorem claim_C5_witness :
    ∃ top5 rest,
      List.Perm [[((0 : ℤ), (0 : ℤ)), (2, 0), (2, 2), (0, 2)],
          [(0, 0), (10, 0), (10, 10), (0, 10)]] (top5 ++ rest) ∧
      top5.length =
        min 5 ([[((0 : ℤ), (0 : ℤ)), (2, 0), (2, 2), (0, 2)],
          [(0, 0), (10, 0), (10, 10), (0, 10)]] : List (List Point)).length ∧
      List.Pairwise (fun a b => contourArea b ≤ contourArea a) top5 ∧
      (∀ c ∈ top5, ∀ r ∈ rest, contourArea r ≤ contourArea c) ∧
      (contourPath (α := ℤ) id (fun _ => 0) MIN_QUAD_AREA_RATIO 40 10 10
        [[(0, 0), (2, 0), (2, 2), (0, 2)],
          [(0, 0), (10, 0), (10, 10), (0, 10)]]).length ≤ 1 ∧
      ((contourPath (α := ℤ) id (fun _ => 0) MIN_QUAD_AREA_RATIO 40 10 10
            [[(0, 0), (2, 0), (2, 2), (0, 2)],
              [(0, 0), (10, 0), (10, 10), (0, 10)]] = [] ∧
          ∀ c ∈ top5,
            is_valid_contour (fun _ => (0 : ℤ)) MIN_QUAD_AREA_RATIO 40 10 10
              (id c) = false) ∨
        (∃ pre c post, top5 = pre ++ c :: post ∧
          is_valid_contour (fun _ => (0 : ℤ)) MIN_QUAD_AREA_RATIO 40 10 10
            (id c) = true ∧
          (∀ c' ∈ pre,
            is_valid_contour (fun _ => (0 : ℤ)) MIN_QUAD_AREA_RATIO 40 10 10
              (id c') = false) ∧
          contourPath (α := ℤ) id (fun _ => 0) MIN_QUAD_AREA_RATIO 40 10 10
            [[(0, 0), (2, 0), (2, 2), (0, 2)],
              [(0, 0), (10, 0), (10, 10), (0, 10)]] = [id c])) :=
  claim_C5_contour_path_first_valid id (fun _ => 0) MIN_QUAD_AREA_RATIO 40 10 10
    [[(0, 0), (2, 0), (2, 2), (0, 2)], [(0, 0), (10, 0), (10, 10), (0, 10)]]

/-- Claim C1: with at least 4 corner candidates, Path A enumerates every
unordered 4-element combination of the candidates, canonicalizes each with
the point-ordering primitive, keeps the 5 quadrilaterals of greatest area,
selects among those 5 the single quadrilateral with the least angle key, and
contributes it as a candidate iff it satisfies the validity criteria; with
fewer than 4 candidates Path A contributes nothing. -/
theorem claim_C1_corner_path {α : Type} [LinearOrder α]
    (orderPts : List Point → List Point) (angleKey : List Point → α)
    (minRatio : ℚ) (maxAngle : α) (W H : ℤ) (test_corners : List Point) :
    (test_corners.length < 4 →
      cornerPath orderPts angleKey minRatio maxAngle W H test_corners = []) ∧
    (4 ≤ test_corners.length →
      ∃ best top5 rest,
        List.Perm ((List.sublistsLen 4 test_corners).map orderPts)
          (top5 ++ rest) ∧
        top5.length = min 5 (test_corners.length.choose 4) ∧
        (∀ q ∈ top5, ∀ r ∈ rest, contourArea r ≤ contourArea q) ∧
        (∀ s, s.Sublist test_corners → s.length = 4 →
          orderPts s ∈ top5 ++ rest) ∧
        best ∈ top5 ∧
        (∀ q ∈ top5, angleKey best ≤ angleKey q) ∧
        cornerPath orderPts angleKey minRatio maxAngle W H test_corners =
          (if is_valid_contour angleKey minRatio maxAngle W H best then [best]
            else [])) := by
  constructor
  · intro hlt
    unfold cornerPath
    rw [if_neg (by omega)]
  · intro h4
    have hlenq : ((List.sublistsLen 4 test_corners).map orderPts).length =
        test_corners.length.choose 4 := by
      rw [List.length_map, List.length_sublistsLen]
    have htpos : 0 < ((List.insertionSort areaDesc
        ((List.sublistsLen 4 test_corners).map orderPts)).take 5).length := by
      rw [List.length_take, List.length_insertionSort, hlenq]
      exact lt_min_iff.mpr ⟨by norm_num, Nat.choose_pos h4⟩
    have hbne : List.insertionSort (angleAsc angleKey)
        ((List.insertionSort areaDesc
          ((List.sublistsLen 4 test_corners).map orderPts)).take 5) ≠ [] := by
      rw [← List.length_pos, List.length_insertionSort]
      exact htpos
    rcases hby : List.insertionSort (angleAsc angleKey)
        ((List.insertionSort areaDesc
          ((List.sublistsLen 4 test_corners).map orderPts)).take 5) with
      _ | ⟨best, t⟩
    · exact absurd hby hbne
    · have hperm : List.Perm ((List.sublistsLen 4 test_corners).map orderPts)
          ((List.insertionSort areaDesc
            ((List.sublistsLen 4 test_corners).map orderPts)).take 5 ++
          (List.insertionSort areaDesc
            ((List.sublistsLen 4 test_corners).map orderPts)).drop 5) := by
        rw [List.take_append_drop]
        exact (List.perm_insertionSort areaDesc _).symm
      have hbmem : best ∈ (List.insertionSort areaDesc
          ((List.sublistsLen 4 test_corners).map orderPts)).take 5 := by
        have hb : best ∈ List.insertionSort (angleAsc angleKey)
            ((List.insertionSort areaDesc
              ((List.sublistsLen 4 test_corners).map orderPts)).take 5) := by
          rw [hby]
          exact List.mem_cons_self _ _
        exact (List.perm_insertionSort (angleAsc angleKey) _).mem_iff.mp hb
      refine ⟨best,
        (List.insertionSort areaDesc
          ((List.sublistsLen 4 test_corners).map orderPts)).take 5,
        (List.insertionSort areaDesc
          ((List.sublistsLen 4 test_corners).map orderPts)).drop 5,
        hperm, ?_, ?_, ?_, hbmem, ?_, ?_⟩
      · rw [List.length_take, List.length_insertionSort, hlenq]
      · intro q hq r hr
        exact (areaDesc_iff q r).mp
          (pairwise_take_drop (List.sorted_insertionSort areaDesc _) 5 q hq r hr)
      · intro s hs hl4
        exact hperm.mem_iff.mp
          (List.mem_map_of_mem orderPts (List.mem_sublistsLen.mpr ⟨hs, hl4⟩))
      · intro q hq
        have hsorted := List.sorted_insertionSort (angleAsc angleKey)
          ((List.insertionSort areaDesc
            ((List.sublistsLen 4 test_corners).map orderPts)).take 5)
        rw [hby] at hsorted
        have hq' : q ∈ best :: t := by
          rw [← hby]
          exact (List.perm_insertionSort (angleAsc angleKey) _).symm.mem_iff.mp hq
        rcases List.mem_cons.mp hq' with rfl | hq''
        · exact le_refl _
        · exact (List.sorted_cons.mp hsorted).1 q hq''
      · unfold cornerPath
        rw [if_pos h4, hby]

/-- Witness for C1 at concrete inputs: with only 2 corner candidates Path A
contributes nothing, and with 5 candidates on a 10×10 frame the full
characterization holds. -/
theorem claim_C1_witness :
    cornerPath (α := ℤ) order_points (fun _ => 0) MIN_QUAD_AREA_RATIO 40 10 10
      [(0, 0), (1, 1)] = [] ∧
    (∃ best top5 rest,
      List.Perm ((List.sublistsLen 4
          [((0 : ℤ), (0 : ℤ)), (10, 0), (10, 10), (0, 10), (5, 5)]).map
            order_points)
        (top5 ++ rest) ∧
      top5.length = min 5
        (([((0 : ℤ), (0 : ℤ)), (10, 0), (10, 10), (0, 10), (5, 5)] :
          List Point).length.choose 4) ∧
      (∀ q ∈ top5, ∀ r ∈ rest, contourArea r ≤ contourArea q) ∧
      (∀ s, s.Sublist
          [((0 : ℤ), (0 : ℤ)), (10, 0), (10, 10), (0, 10), (5, 5)] →
        s.length = 4 → order_points s ∈ top5 ++ rest) ∧
      best ∈ top5 ∧
      (∀ q ∈ top5, (fun _ => (0 : ℤ)) best ≤ (fun _ => (0 : ℤ)) q) ∧
      cornerPath (α := ℤ) order_points (fun _ => 0) MIN_QUAD_AREA_RATIO 40 10 10
        [(0, 0), (10, 0), (10, 10), (0, 10), (5, 5)] =
        (if is_valid_contour (fun _ => (0 : ℤ)) MIN_QUAD_AREA_RATIO 40 10 10
          best then [best] else [])) :=
  ⟨(claim_C1_corner_path order_points (fun _ => 0) MIN_QUAD_AREA_RATIO 40 10 10
      [(0, 0), (1, 1)]).1 (by decide),
   (claim_C1_corner_path order_points (fun _ => 0) MIN_QUAD_AREA_RATIO 40 10 10
      [(0, 0), (10, 0), (10, 10), (0, 10), (5, 5)]).2 (by decide)⟩

/-! ### The close-point filter -/

/-- The comparison in `farFrom` is exactly the float comparison
`dist.euclidean(a, b) >= min_dist` of the source, for a nonnegative
`min_dist`. -/
theorem sqDist_le_iff_dist_le (a b : Point) (d : ℤ) (hd : 0 ≤ d) :
    (d : ℝ) ≤ Real.sqrt ((sqDist a b : ℤ) : ℝ) ↔ d ^ 2 ≤ sqDist a b := by
  have hnn : (0 : ℤ) ≤ sqDist a b := by
    unfold sqDist
    positivity
  have hnn' : (0 : ℝ) ≤ ((sqDist a b : ℤ) : ℝ) := by exact_mod_cast hnn
  rw [Real.le_sqrt (by exact_mod_cast hd) hnn']
  exact_mod_cast Iff.rfl

theorem filterPred_iff (d : ℤ) (reps : List Point) (c : Point) :
    filterPred d reps c = true ↔ ∀ r ∈ reps, d ^ 2 ≤ sqDist r c := by
  simp [filterPred, farFrom]

theorem filterPred_eq_false_iff (d : ℤ) (reps : List Point) (c : Point) :
    filterPred d reps c = false ↔ ∃ r ∈ reps, sqDist r c < d ^ 2 := by
  rw [Bool.eq_false_iff, Ne, filterPred_iff]
  push_neg
  simp only [not_le]

/-- The accumulator of the filter loop is a prefix of its output. -/
theorem filterCornersAux_prefix (d : ℤ) (acc l : List Point) :
    ∃ t, filterCornersAux d acc l = acc ++ t := by
  induction l generalizing acc with
  | nil => exact ⟨[], by simp [filterCornersAux]⟩
  | cons c cs ih =>
      unfold filterCornersAux
      by_cases hp : filterPred d acc c = true
      · rw [if_pos hp]
        rcases ih (acc ++ [c]) with ⟨t, ht⟩
        exact ⟨c :: t, by rw [ht, List.append_assoc]; rfl⟩
      · rw [if_neg hp]
        exact ih acc


/-- The filter loop preserves mutual farness of the kept list. -/
theorem filterCornersAux_pairwise (d : ℤ) (l : List Point) :
    ∀ acc : List Point,
      List.Pairwise (fun a b => d ^ 2 ≤ sqDist a b) acc →
      List.Pairwise (fun a b => d ^ 2 ≤ sqDist a b) (filterCornersAux d acc l) := by
  induction l with
  | nil => intro acc hacc; exact hacc
  | cons c cs ih =>
      intro acc hacc
      unfold filterCornersAux
      by_cases hp : filterPred d acc c = true
      · rw [if_pos hp]
        refine ih (acc ++ [c]) ?_
        rw [List.pairwise_append]
        refine ⟨hacc, List.pairwise_singleton _ _, ?_⟩
        intro a ha b hb
        rw [List.mem_singleton] at hb
        rw [hb]
        exact (filterPred_iff d acc c).mp hp a ha
      · rw [if_neg hp]
        exact ih acc hacc

/-- On an already mutually-far list (far also from the accumulator), the
filter loop keeps everything. -/
theorem filterCornersAux_of_pairwise (d : ℤ) (l : List Point) :
    ∀ acc : List Point,
      List.Pairwise (fun a b => d ^ 2 ≤ sqDist a b) l →
      (∀ a ∈ acc, ∀ b ∈ l, d ^ 2 ≤ sqDist a b) →
      filterCornersAux d acc l = acc ++ l := by
  induction l with
  | nil => intro acc _ _; simp [filterCornersAux]
  | cons c cs ih =>
      intro acc hl hcross
      have hp : filterPred d acc c = true :=
        (filterPred_iff d acc c).mpr (fun r hr => hcross r hr c (List.mem_cons_self _ _))
      unfold filterCornersAux
      rw [if_pos hp]
      have hl' := List.pairwise_cons.mp hl
      have hstep := ih (acc ++ [c]) hl'.2 ?_
      · rw [hstep, List.append_assoc]
        rfl
      · intro a ha b hb
        rcases List.mem_append.mp ha with ha' | ha'
        · exact hcross a ha' b (List.mem_cons_of_mem c hb)
        · rw [List.mem_singleton] at ha'
          subst ha'
          exact hl'.1 b hb

/-- Every input point is either kept or within `d` of some kept point. -/
theorem filterCornersAux_coverage (d : ℤ) (l : List Point) :
    ∀ acc : List Point, ∀ x ∈ l,
      x ∈ filterCornersAux d acc l ∨
        ∃ r ∈ filterCornersAux d acc l, sqDist r x < d ^ 2 := by
  induction l with
  | nil => intro acc x hx; simp at hx
  | cons c cs ih =>
      intro acc x hx
      unfold filterCornersAux
      by_cases hp : filterPred d acc c = true
      · rw [if_pos hp]
        rcases List.mem_cons.mp hx with rfl | hx'
        · left
          rcases filterCornersAux_prefix d (acc ++ [x]) cs with ⟨t, ht⟩
          rw [ht]
          exact List.mem_append.mpr (Or.inl (by simp))
        · exact ih (acc ++ [c]) x hx'
      · rw [if_neg hp]
        rcases List.mem_cons.mp hx with rfl | hx'
        · right
          rcases (filterPred_eq_false_iff d acc x).mp
            (Bool.eq_false_iff.mpr hp) with ⟨r, hr, hlt⟩
          rcases filterCornersAux_prefix d acc cs with ⟨t, ht⟩
          exact ⟨r, by rw [ht]; exact List.mem_append.mpr (Or.inl hr), hlt⟩
        · exact ih acc x hx'

/-- The filter output is a subsequence of its input. -/
theorem filterCornersAux_sublist (d : ℤ) (l : List Point) :
    ∀ acc : List Point, (filterCornersAux d acc l).Sublist (acc ++ l) := by
  induction l with
  | nil => intro acc; simp [filterCornersAux]
  | cons c cs ih =>
      intro acc
      unfold filterCornersAux
      by_cases hp : filterPred d acc c = true
      · rw [if_pos hp]
        have := ih (acc ++ [c])
        rw [List.append_assoc] at this
        exact this
      · rw [if_neg hp]
        exact (ih acc).trans
          (List.Sublist.append_left (List.sublist_cons_self c cs) acc)

/-- Claim C7: `filter_corners` keeps exactly the points far (at least
`min_dist`, compared via squared distances) from every previously kept point:
the kept points are mutually at least `min_dist` apart, every input point is
either kept or strictly within `min_dist` of a kept point, the output is a
subsequence of the input (first-seen wins), and the filter is idempotent. -/
theorem claim_C7_filter_corners_greedy_idempotent (minDist : ℤ)
    (corners : List Point) :
    List.Pairwise (fun a b => minDist ^ 2 ≤ sqDist a b)
      (filter_corners corners minDist) ∧
    (∀ x ∈ corners, x ∈ filter_corners corners minDist ∨
      ∃ r ∈ filter_corners corners minDist, sqDist r x < minDist ^ 2) ∧
    (filter_corners corners minDist).Sublist corners ∧
    filter_corners (filter_corners corners minDist) minDist =
      filter_corners corners minDist := by
  refine ⟨filterCornersAux_pairwise minDist corners [] List.Pairwise.nil,
    fun x hx => filterCornersAux_coverage minDist corners [] x hx,
    filterCornersAux_sublist minDist corners [], ?_⟩
  have hpw := filterCornersAux_pairwise minDist corners [] List.Pairwise.nil
  have h := filterCornersAux_of_pairwise minDist
    (filterCornersAux minDist [] corners) [] hpw (by simp)
  unfold filter_corners
  rw [h]
  rfl

/-- Witness for C7 at a concrete input: of five points, the two within 20
units of an earlier point are dropped and the rest kept, and refiltering the
output changes nothing. -/
theorem claim_C7_witness :
    List.Pairwise (fun a b => (20 : ℤ) ^ 2 ≤ sqDist a b)
      (filter_corners [(0, 0), (5, 5), (100, 100), (101, 101), (0, 30)] 20) ∧
    (∀ x ∈ ([(0, 0), (5, 5), (100, 100), (101, 101), (0, 30)] : List Point),
      x ∈ filter_corners [(0, 0), (5, 5), (100, 100), (101, 101), (0, 30)] 20 ∨
      ∃ r ∈ filter_corners [(0, 0), (5, 5), (100, 100), (101, 101), (0, 30)] 20,
        sqDist r x < (20 : ℤ) ^ 2) ∧
    (filter_corners [(0, 0), (5, 5), (100, 100), (101, 101), (0, 30)]
      20).Sublist [(0, 0), (5, 5), (100, 100), (101, 101), (0, 30)] ∧
    filter_corners
        (filter_corners [(0, 0), (5, 5), (100, 100), (101, 101), (0, 30)] 20)
        20 =
      filter_corners [(0, 0), (5, 5), (100, 100), (101, 101), (0, 30)] 20 :=
  claim_C7_filter_corners_greedy_idempotent 20
    [(0, 0), (5, 5), (100, 100), (101, 101), (0, 30)]

/-! ### Canonical ordering and angle geometry -/

/-- The canonical sort underlying `order_points` depends only on the multiset
of input points. -/
theorem insertionSort_ptLe_perm_congr {l₁ l₂ : List Point} (h : l₁.Perm l₂) :
    List.insertionSort ptLe l₁ = List.insertionSort ptLe l₂ := by
  exact @List.eq_of_perm_of_sorted Point ptLe _ _ _
    ((List.perm_insertionSort ptLe l₁).trans
      (h.trans (List.perm_insertionSort ptLe l₂).symm))
    (List.sorted_insertionSort ptLe l₁) (List.sorted_insertionSort ptLe l₂)

theorem order_points_perm_congr {l₁ l₂ : List Point} (h : l₁.Perm l₂) :
    order_points l₁ = order_points l₂ := by
  unfold order_points
  rw [insertionSort_ptLe_perm_congr h]

/-- Claim C8: the canonical ordering followed by the angle-range computation
is invariant under any permutation of the input points — in particular under
every cyclic rotation and mirroring of the input order. -/
theorem claim_C8_angle_range_order_invariant (l₁ l₂ : List Point)
    (h : l₁.Perm l₂) :
    angle_range (order_points l₁) = angle_range (order_points l₂) := by
  rw [order_points_perm_congr h]

/-- Witness for C8: the axis-aligned 10×10 square fed in two different input
orders (one a mirrored rotation of the other) yields the same angle range. -/
theorem claim_C8_witness :
    angle_range (order_points [(0, 0), (10, 0), (10, 10), (0, 10)]) =
      angle_range (order_points [(10, 10), (0, 0), (0, 10), (10, 0)]) :=
  claim_C8_angle_range_order_invariant
    [(0, 0), (10, 0), (10, 10), (0, 10)]
    [(10, 10), (0, 0), (0, 10), (10, 0)] (by decide)

/-- Uniform positive scaling of both vectors leaves the cosine argument of
the angle computation unchanged. -/
theorem cos_arg_scale (u v : ℝ × ℝ) (k : ℝ) (hk : 0 < k) :
    vdot (u.1 * k, u.2 * k) (v.1 * k, v.2 * k) /
        (vnorm (u.1 * k, u.2 * k) * vnorm (v.1 * k, v.2 * k)) =
      vdot u v / (vnorm u * vnorm v) := by
  unfold vdot vnorm
  have hnu : Real.sqrt ((u.1 * k) ^ 2 + (u.2 * k) ^ 2) =
      Real.sqrt (u.1 ^ 2 + u.2 ^ 2) * k := by
    rw [show (u.1 * k) ^ 2 + (u.2 * k) ^ 2 = (u.1 ^ 2 + u.2 ^ 2) * k ^ 2 by ring,
      Real.sqrt_mul (by positivity), Real.sqrt_sq hk.le]
  have hnv : Real.sqrt ((v.1 * k) ^ 2 + (v.2 * k) ^ 2) =
      Real.sqrt (v.1 ^ 2 + v.2 ^ 2) * k := by
    rw [show (v.1 * k) ^ 2 + (v.2 * k) ^ 2 = (v.1 ^ 2 + v.2 ^ 2) * k ^ 2 by ring,
      Real.sqrt_mul (by positivity), Real.sqrt_sq hk.le]
  rw [hnu, hnv]
  rw [show u.1 * k * (v.1 * k) + u.2 * k * (v.2 * k) =
    (u.1 * v.1 + u.2 * v.2) * k ^ 2 by ring]
  rw [show Real.sqrt (u.1 ^ 2 + u.2 ^ 2) * k * (Real.sqrt (v.1 ^ 2 + v.2 ^ 2) * k) =
    Real.sqrt (u.1 ^ 2 + u.2 ^ 2) * Real.sqrt (v.1 ^ 2 + v.2 ^ 2) * k ^ 2 by ring]
  exact mul_div_mul_right _ _ (by positivity)

/-- The `np.radians` conversion scales each difference vector by `π / 180`. -/
theorem npRadians_sub (p q : Point) :
    npRadians p - npRadians q =
      ((toVec p - toVec q).1 * (Real.pi / 180),
        (toVec p - toVec q).2 * (Real.pi / 180)) := by
  unfold npRadians toVec
  simp only [Prod.mk_sub_mk, Prod.mk.injEq]
  constructor <;> ring

/-- Claim C10: `get_angle(p1, p2, p3)` equals the angle in degrees between
the raw difference vectors `p1 − p2` and `p3 − p2`: the `np.radians`
conversion multiplies all coordinates by the positive constant `π / 180`,
under which the angle between two vectors is invariant. -/
theorem claim_C10_get_angle_eq_unscaled (p1 p2 p3 : Point)
    (h1 : p1 ≠ p2) (h3 : p3 ≠ p2) :
    get_angle p1 p2 p3 =
      angle_between_vectors_degrees (toVec p1 - toVec p2)
        (toVec p3 - toVec p2) := by
  unfold get_angle angle_between_vectors_degrees
  rw [npRadians_sub p1 p2, npRadians_sub p3 p2,
    cos_arg_scale (toVec p1 - toVec p2) (toVec p3 - toVec p2) (Real.pi / 180)
      (by positivity)]

/-- Witness for C10: at the concrete corner `(1,0), (0,0), (0,1)` the scaled
and unscaled angle computations agree. -/
theorem claim_C10_witness :
    get_angle (1, 0) (0, 0) (0, 1) =
      angle_between_vectors_degrees
        (toVec (1, 0) - toVec (0, 0)) (toVec (0, 1) - toVec (0, 0)) :=
  claim_C10_get_angle_eq_unscaled (1, 0) (0, 0) (0, 1) (by decide) (by decide)

end DocScan
